import Mathlib

/-!
Verification of the speedcubing stopwatch (`timer.js`).

The development shallowly embeds the components of the program:

* `Time` / `Time.toString` — millisecond durations and their display format;
* `TimerState` / `toggle` / `tick` — the on/off timer with its periodic
  refresh callback, as a state machine over wall-clock instants (`Nat`
  milliseconds, as produced by `Date.now()`);
* `SolveRecord` / `addSolveRecord` / `updateStats` — the solve history and
  the recomputed session statistics (best, worst, mean, median).

Event traces (`Ev`, `run`) model arbitrary interleavings of toggle calls and
refresh ticks drawn from the single-threaded event queue.  All definitions
come first, followed by the theorems.
-/

/-- A length of time with millisecond accuracy (`class Time`).  The stored
count is a natural number: negative inputs are outside the supported domain. -/
structure Time where
  ms : Nat
deriving DecidableEq

/-- JS `String.prototype.padStart(n, c)`: left-pad to length `n` with `c`;
strings already at least `n` long are returned unchanged. -/
def padStart (s : String) (n : Nat) (c : Char) : String :=
  String.mk (List.replicate (n - s.length) c) ++ s

/-- Method `Time.prototype.toString()`: minutes, seconds and residual
milliseconds are extracted exactly as in the source; the minutes field is
omitted when `minutes < 1`. -/
def Time.toString (t : Time) : String :=
  let minutes := t.ms / 60000
  let seconds := (t.ms / 1000) % 60
  let ms := t.ms - minutes * 60000 - seconds * 1000
  let msStr := padStart (Nat.repr ms) 3 '0'
  if minutes < 1 then
    Nat.repr seconds ++ "." ++ msStr
  else
    padStart (Nat.repr minutes) 2 '0' ++ ":" ++
      padStart (Nat.repr seconds) 2 '0' ++ "." ++ msStr

/-- The format rule as the specification words it: branch on `d < 60000`,
minutes `= ⌊d/60000⌋`, seconds `= ⌊d/1000⌋ mod 60`, residual
`ms = d − minutes·60000 − seconds·1000`, milliseconds padded to width 3,
minutes and seconds padded to width 2 when minutes are shown. -/
def formatSpec (d : Nat) : String :=
  let minutes := d / 60000
  let seconds := (d / 1000) % 60
  let ms := d - minutes * 60000 - seconds * 1000
  let msStr := padStart (Nat.repr ms) 3 '0'
  if d < 60000 then
    Nat.repr seconds ++ "." ++ msStr
  else
    padStart (Nat.repr minutes) 2 '0' ++ ":" ++
      padStart (Nat.repr seconds) 2 '0' ++ "." ++ msStr

/-- Function `generateScramble()`: the placeholder scramble generator
returns a fixed constant string, taking no input whatsoever. -/
def generateScramble : String :=
  "placeholder: U D2 L\x27 R\x27 L2"

/-!
The Timer state machine.  A `Timer` instance holds four mutable fields.
The JS field `interval` is modelled as the boolean "a periodic refresh is
currently scheduled" (the JS field stores the interval handle; after
`clearInterval` the handle is inert).  The fields `time` and `start` hold
`none` for the JS value `undefined`.  Wall-clock instants are naturals, the
milliseconds returned by `Date.now()`.
-/

/-- The mutable state of a `Timer` instance. -/
structure TimerState where
  running : Bool
  intervalActive : Bool
  time : Option Nat
  start : Option Nat
deriving DecidableEq

/-- Constructor `new Timer()`: not running, no scheduled refresh, `time`
and `start` undefined. -/
def initTimer : TimerState :=
  { running := false, intervalActive := false, time := none, start := none }

/-- Method `Timer.prototype.toggle()` called at wall-clock instant `now`.
Returns the successor state together with the return value of the call:
when stopping, the stored `time` field (which may be `undefined`); when
starting, `undefined` (`none`). -/
def toggle (now : Nat) (s : TimerState) : TimerState × Option Nat :=
  if s.running then
    ({ s with running := false, intervalActive := false }, s.time)
  else
    ({ s with running := true, start := some now, intervalActive := true }, none)

/-- One execution of the `setInterval` callback at wall-clock instant `now`:
it fires only while the refresh is scheduled, and overwrites `time` with a
`Time` holding `delta = now − start`.  (While the refresh is scheduled,
`start` is always set; the `getD 0` default is never exercised.) -/
def tick (now : Nat) (s : TimerState) : TimerState :=
  if s.intervalActive then
    { s with time := some (now - s.start.getD 0) }
  else
    s

/-- An event drawn from the single-threaded queue: a `toggle()` call or a
refresh-callback execution, each at some wall-clock instant. -/
inductive Ev where
  | toggle (t : Nat)
  | tick (t : Nat)
deriving DecidableEq

/-- State transition of a single event (the return value of a toggle call
is discarded here; it is read off with `toggle` directly where needed). -/
def step (s : TimerState) (e : Ev) : TimerState :=
  match e with
  | .toggle t => (toggle t s).1
  | .tick t => tick t s

/-- Run a list of events from a state. -/
def run (s : TimerState) (evs : List Ev) : TimerState :=
  evs.foldl step s

/-- Whether an event is a refresh-callback execution. -/
def Ev.isTick : Ev → Bool
  | .tick _ => true
  | .toggle _ => false

/-- Number of toggle calls in a trace. -/
def countToggles (evs : List Ev) : Nat :=
  evs.countP (fun e => !e.isTick)

/-!
Solve history and session statistics.  `addSolveRecord` pushes a record
onto the module-level `solves` array and calls `updateStats`.
`updateStats` sorts `solves` in place (JS `Array.prototype.sort` mutates
its receiver and is stable), then derives best, worst, mean and median.
The embedding threads the array explicitly: the first component of
`updateStats` is the array as left behind by the call.  On the empty
history the JS code throws before producing stats; this is the `none`
branch.
-/

/-- A completed solve: a `Time` paired with its scramble string. -/
structure SolveRecord where
  time : Time
  scramble : String
deriving DecidableEq

/-- The order induced by the sort comparator
`(a, b) => a.time.ms - b.time.ms`: ascending milliseconds. -/
def msLE (a b : SolveRecord) : Prop :=
  a.time.ms ≤ b.time.ms

instance : DecidableRel msLE :=
  fun a b => inferInstanceAs (Decidable (a.time.ms ≤ b.time.ms))

instance : IsTotal SolveRecord msLE :=
  ⟨fun a b => Nat.le_total a.time.ms b.time.ms⟩

instance : IsTrans SolveRecord msLE :=
  ⟨fun _ _ _ => Nat.le_trans⟩

/-- The in-place sort `solves.sort(...)`.  JS `Array.prototype.sort` is a
stable sort and the output of a stable sort is unique, so any stable sort —
here insertion sort — is a faithful model of it. -/
def sortSolves (l : List SolveRecord) : List SolveRecord :=
  l.insertionSort msLE

/-- The derived statistics view {mean, best, median, worst}.  Mean and
median are rationals: JS division yields fractional milliseconds. -/
structure Stats where
  mean : ℚ
  best : Nat
  median : ℚ
  worst : Nat
deriving DecidableEq

/-- Function `updateStats()`: sorts the history in place, then reads worst
from the last and best from the first sorted entry, sums all millisecond
values for the mean, and takes the middle sorted entry (or the average of
the two middle entries) for the median.  Returns the array as left in the
module variable together with the stats (`none` when the history is empty:
the JS code throws on the out-of-range index before producing any stats). -/
def updateStats (solves : List SolveRecord) : List SolveRecord × Option Stats :=
  match sortSolves solves with
  | [] => ([], none)
  | x :: xs =>
      let sortedSolves := x :: xs
      let n : Nat := sortedSolves.length
      let worstTime : Nat := (sortedSolves.getLast (List.cons_ne_nil x xs)).time.ms
      let bestTime : Nat := x.time.ms
      let sum : Nat := (sortedSolves.map (fun r => r.time.ms)).sum
      let mean : ℚ := (sum : ℚ) / (n : ℚ)
      let median : ℚ :=
        if n % 2 = 1 then
          ((sortedSolves.getD (n / 2) x).time.ms : ℚ)
        else
          (((sortedSolves.getD (n / 2 - 1) x).time.ms : ℚ)
            + ((sortedSolves.getD (n / 2) x).time.ms : ℚ)) / 2
      (sortedSolves, some ⟨mean, bestTime, median, worstTime⟩)

/-- Function `addSolveRecord(r)`: `solves.push(r)` followed by
`updateStats()`. -/
def addSolveRecord (solves : List SolveRecord) (r : SolveRecord) :
    List SolveRecord × Option Stats :=
  updateStats (solves ++ [r])

/-- The module-level `solves` array after recording a sequence of solves
(in that order) from an initially empty history. -/
def recordAll (rs : List SolveRecord) : List SolveRecord :=
  rs.foldl (fun st r => (addSolveRecord st r).1) []

/-- The millisecond values of a history, in the order of the history. -/
def msValues (l : List SolveRecord) : List Nat :=
  l.map (fun r => r.time.ms)

/-- Median as the specification words it: the middle value after sorting
the millisecond values, averaging the two central values when the count is
even. -/
def medianSpec (v : List Nat) : ℚ :=
  let s := v.insertionSort (· ≤ ·)
  if v.length % 2 = 1 then
    ((s.getD (v.length / 2) 0 : Nat) : ℚ)
  else
    (((s.getD (v.length / 2 - 1) 0 : Nat) : ℚ)
      + ((s.getD (v.length / 2) 0 : Nat) : ℚ)) / 2

/-- Example history with millisecond values 1000, 2000, 3000. -/
def exThree : List SolveRecord :=
  [⟨⟨1000⟩, "s"⟩, ⟨⟨2000⟩, "s"⟩, ⟨⟨3000⟩, "s"⟩]

/-- Example history with millisecond values 1000, 3000. -/
def exTwo : List SolveRecord :=
  [⟨⟨1000⟩, "s"⟩, ⟨⟨3000⟩, "s"⟩]

/-- The first solve of a reordering scenario: 3000 ms. -/
def rA : SolveRecord := ⟨⟨3000⟩, "s1"⟩

/-- The second solve of a reordering scenario: 1000 ms. -/
def rB : SolveRecord := ⟨⟨1000⟩, "s2"⟩

/-- The third solve of a reordering scenario: 2000 ms. -/
def rC : SolveRecord := ⟨⟨2000⟩, "s3"⟩

/-!
Theorems.  First the two formatting claims, then the timer state machine,
then the solve history and statistics.
-/

/-- C1: `Time.toString` renders a duration `d` as `seconds.mmm` when
`d < 60000` and as `MM:SS.mmm` otherwise, with minutes and seconds
zero-padded to width 2 in the latter case and milliseconds always padded to
width 3, using `minutes = ⌊d/60000⌋`, `seconds = ⌊d/1000⌋ mod 60` and
residual `ms = d − minutes·60000 − seconds·1000`; in particular `Time 0`
formats to `"0.000"`, `Time 12345` to `"12.345"`, `Time 62345` to
`"01:02.345"` and `Time 605000` to `"10:05.000"`. -/
theorem time_toString_spec :
    (∀ d : Nat, (Time.mk d).toString = formatSpec d) ∧
    (Time.mk 0).toString = "0.000" ∧
    (Time.mk 12345).toString = "12.345" ∧
    (Time.mk 62345).toString = "01:02.345" ∧
    (Time.mk 605000).toString = "10:05.000" := by
  refine ⟨fun d => ?_, by decide, by decide, by decide, by decide⟩
  show (if d / 60000 < 1 then _ else _) = (if d < 60000 then _ else _)
  have h : d / 60000 < 1 ↔ d < 60000 := by omega
  by_cases hd : d < 60000
  · rw [if_pos (h.mpr hd), if_pos hd]
  · rw [if_neg (fun hlt => hd (h.mp hlt)), if_neg hd]

/-- C8: the scramble generator is the placeholder constant: every call
returns the same fixed string, independent of any program state. -/
theorem generateScramble_const :
    generateScramble = "placeholder: U D2 L\x27 R\x27 L2" := rfl

theorem run_nil (s : TimerState) : run s [] = s := rfl

theorem run_cons (s : TimerState) (e : Ev) (evs : List Ev) :
    run s (e :: evs) = run (step s e) evs := rfl

theorem toggle_flips_running (now : Nat) (s : TimerState) :
    ((toggle now s).1).running = !s.running := by
  cases h : s.running <;> simp [toggle, h]

theorem tick_preserves_running (now : Nat) (s : TimerState) :
    (tick now s).running = s.running := by
  unfold tick
  by_cases h : s.intervalActive <;> simp [h]

theorem step_running (s : TimerState) (e : Ev) :
    (step s e).running = (s.running != !e.isTick) := by
  cases e with
  | toggle t =>
      cases h : s.running <;> simp [step, Ev.isTick, toggle, h]
  | tick t =>
      cases h : s.running <;>
        simp [step, Ev.isTick, tick_preserves_running, h]

theorem run_running_parity (evs : List Ev) :
    ∀ s : TimerState,
      (run s evs).running = (s.running != (countToggles evs % 2 == 1)) := by
  induction evs with
  | nil =>
      intro s
      simp [run_nil, countToggles]
  | cons e rest ih =>
      intro s
      rw [run_cons, ih]
      cases e with
      | toggle t =>
          have hc : countToggles (Ev.toggle t :: rest) = countToggles rest + 1 := by
            simp [countToggles, List.countP_cons, Ev.isTick]
          rw [hc, step_running]
          have hmod : ((countToggles rest + 1) % 2 == 1)
              = !(countToggles rest % 2 == 1) := by
            rcases Nat.mod_two_eq_zero_or_one (countToggles rest) with h | h <;>
              simp [Nat.add_mod, h]
          rw [hmod]
          cases s.running <;> cases hb : (countToggles rest % 2 == 1) <;>
            simp [Ev.isTick]
      | tick t =>
          have hc : countToggles (Ev.tick t :: rest) = countToggles rest := by
            simp [countToggles, List.countP_cons, Ev.isTick]
          rw [hc, step_running]
          cases s.running <;> simp [Ev.isTick]

theorem toggle_stop_returns_time (now : Nat) (s : TimerState)
    (h : s.running = true) : (toggle now s).2 = s.time := by
  simp [toggle, h]

theorem toggle_defined_only_if_running (now : Nat) (s : TimerState)
    (h : ((toggle now s).2).isSome = true) : s.running = true := by
  by_contra hr
  rw [Bool.not_eq_true] at hr
  simp [toggle, hr] at h

theorem run_no_tick_time_none (evs : List Ev)
    (h : evs.all (fun e => !e.isTick) = true) :
    (run initTimer evs).time = none := by
  have key : ∀ (l : List Ev) (s : TimerState), l.all (fun e => !e.isTick) = true →
      (run s l).time = s.time := by
    intro l
    induction l with
    | nil => intro s _; rfl
    | cons e rest ih =>
        intro s hall
        rw [List.all_cons, Bool.and_eq_true] at hall
        rw [run_cons]
        cases e with
        | toggle t =>
            rw [ih _ hall.2]
            cases hr : s.running <;> simp [step, toggle, hr]
        | tick t =>
            exact absurd hall.1 (by simp [Ev.isTick])
  exact key evs initTimer h

theorem step_preserves_start_inv (s : TimerState) (e : Ev)
    (h : s.running = true → s.start.isSome = true) :
    (step s e).running = true → (step s e).start.isSome = true := by
  cases e with
  | toggle t =>
      cases hr : s.running <;> simp [step, toggle, hr]
  | tick t =>
      by_cases ha : s.intervalActive <;>
        simpa [step, tick, ha] using h

theorem run_start_inv (evs : List Ev) :
    ∀ s : TimerState, (s.running = true → s.start.isSome = true) →
      ((run s evs).running = true → (run s evs).start.isSome = true) := by
  induction evs with
  | nil => intro s h; exact h
  | cons e rest ih =>
      intro s h
      rw [run_cons]
      exact ih _ (step_preserves_start_inv s e h)

/-- C3-counterexample: stopping the timer does not recompute the elapsed
time at the stop instant.  Start at 0, one refresh tick at 10, stop at 15:
the call returns `Time 10` — the value captured at the last tick — whereas
the claimed behaviour would return `Time (15 − 0)`. -/
theorem toggle_stop_stale_counterexample :
    (toggle 15 (run initTimer [Ev.toggle 0, Ev.tick 10])).2 = some 10 ∧
    (toggle 15 (run initTimer [Ev.toggle 0, Ev.tick 10])).2 ≠ some (15 - 0) := by
  constructor
  · rfl
  · decide

/-- C3-amended: a toggle call in the running state stops the periodic
refresh, transitions to idle, and returns the `Time` stored by the most
recent refresh tick (the `time` field as-is, not recomputed at the stop
instant); each refresh tick stores `now − startInstant` evaluated at the
wall-clock instant of that tick. -/
theorem toggle_stop_behavior :
    (∀ (now : Nat) (s : TimerState), s.running = true →
      (toggle now s).1.running = false ∧
      (toggle now s).1.intervalActive = false ∧
      (toggle now s).2 = s.time) ∧
    (∀ (now : Nat) (s : TimerState), s.intervalActive = true →
      (tick now s).time = some (now - s.start.getD 0)) := by
  constructor
  · intro now s h
    refine ⟨?_, ?_, ?_⟩ <;> simp [toggle, h]
  · intro now s h
    simp [tick, h]

theorem toggle_stop_behavior_witness :
    (run initTimer [Ev.toggle 0, Ev.tick 10]).running = true ∧
    (toggle 15 (run initTimer [Ev.toggle 0, Ev.tick 10])).2 =
      (run initTimer [Ev.toggle 0, Ev.tick 10]).time ∧
    (TimerState.mk true true none (some 4)).intervalActive = true ∧
    (tick 9 (TimerState.mk true true none (some 4))).time = some (9 - 4) :=
  ⟨by decide,
   (toggle_stop_behavior.1 15 (run initTimer [Ev.toggle 0, Ev.tick 10])
     (by decide)).2.2,
   by decide,
   toggle_stop_behavior.2 9 (TimerState.mk true true none (some 4)) (by decide)⟩

/-- C4-counterexample: a toggle call that transitions running→idle need not
return a defined `Time`.  Start at 0 and stop at 5 with no refresh tick in
between: the stopping call transitions running→idle yet returns
`undefined`, refuting the claimed "if and only if". -/
theorem toggle_return_iff_counterexample :
    (run initTimer [Ev.toggle 0]).running = true ∧
    (toggle 5 (run initTimer [Ev.toggle 0])).1.running = false ∧
    (toggle 5 (run initTimer [Ev.toggle 0])).2 = none := by
  refine ⟨?_, ?_, ?_⟩ <;> decide

/-- C4-amended: over every event trace from the initial state, `running`
alternates strictly — each toggle call flips it, refresh ticks never change
it, and after any trace it equals the parity of the number of toggle calls —
and a defined `Time` is returned only if the call transitioned
running→idle; a stopping call returns the stored `time` field, which is
defined exactly when some refresh tick has executed before the call (not
merely because the call stopped the timer). -/
theorem toggle_alternation :
    (∀ (now : Nat) (s : TimerState), ((toggle now s).1).running = !s.running) ∧
    (∀ (now : Nat) (s : TimerState), (tick now s).running = s.running) ∧
    (∀ evs : List Ev, (run initTimer evs).running = (countToggles evs % 2 == 1)) ∧
    (∀ (now : Nat) (s : TimerState),
      ((toggle now s).2).isSome = true → s.running = true) ∧
    (∀ (now : Nat) (s : TimerState), s.running = true →
      (toggle now s).2 = s.time) := by
  refine ⟨toggle_flips_running, tick_preserves_running, ?_,
    toggle_defined_only_if_running, toggle_stop_returns_time⟩
  intro evs
  rw [run_running_parity]
  show (false != (countToggles evs % 2 == 1)) = _
  cases countToggles evs % 2 == 1 <;> rfl

theorem toggle_alternation_witness :
    (TimerState.mk true true (some 7) (some 0)).running = true ∧
    (toggle 5 (TimerState.mk true true (some 7) (some 0))).2 = some 7 :=
  ⟨by decide,
   toggle_alternation.2.2.2.2 5 (TimerState.mk true true (some 7) (some 0))
     (by decide)⟩

/-- C6-counterexample: `startInstant` is not cleared when the timer stops.
After starting at 0 and stopping at 5, `running` is `false` while `start`
is still `some 0`, refuting the claimed "`startInstant` is set if and only
if `running` is true". -/
theorem start_iff_running_counterexample :
    (run initTimer [Ev.toggle 0, Ev.toggle 5]).running = false ∧
    (run initTimer [Ev.toggle 0, Ev.toggle 5]).start = some 0 ∧
    (run initTimer [Ev.toggle 0, Ev.toggle 5]).start ≠ none := by
  refine ⟨?_, ?_, ?_⟩ <;> decide

/-- C6-amended: the constructor establishes `running = false` with `start`
undefined, and every reachable state satisfies the one-directional
invariant: whenever `running` is true, `startInstant` is set.  (The
converse fails: `start` remains set after the first stop.) -/
theorem start_set_if_running :
    initTimer.running = false ∧ initTimer.start = none ∧
    (∀ evs : List Ev, (run initTimer evs).running = true →
      ((run initTimer evs).start).isSome = true) := by
  refine ⟨rfl, rfl, ?_⟩
  intro evs
  exact run_start_inv evs initTimer (by intro h; cases h)

theorem start_set_if_running_witness :
    (run initTimer [Ev.toggle 3]).running = true ∧
    ((run initTimer [Ev.toggle 3]).start).isSome = true :=
  ⟨by decide, start_set_if_running.2.2 [Ev.toggle 3] (by decide)⟩

/-- C7: for a started timer (periodic refresh active, `startInstant`
fixed), the elapsed value the refresh callback computes and stores is
monotone in the sampling instant: sampling at `t1 < t2` stores values with
the one at `t2` at least the one at `t1`, independent of tick scheduling. -/
theorem elapsed_monotone (s : TimerState) (t1 t2 : Nat)
    (hact : s.intervalActive = true) (hlt : t1 < t2) :
    ((tick t1 s).time).getD 0 ≤ ((tick t2 s).time).getD 0 := by
  simp only [tick, hact, if_pos, Option.getD_some]
  exact Nat.sub_le_sub_right (Nat.le_of_lt hlt) _

theorem elapsed_monotone_witness :
    ((TimerState.mk true true none (some 2)).intervalActive = true ∧
      (3 : Nat) < 5) ∧
    ((tick 3 (TimerState.mk true true none (some 2))).time).getD 0 ≤
      ((tick 5 (TimerState.mk true true none (some 2))).time).getD 0 :=
  ⟨⟨by decide, by decide⟩,
   elapsed_monotone (TimerState.mk true true none (some 2)) 3 5
     (by decide) (by decide)⟩

/-- C10-counterexample: the `time` field survives across runs, so a stop
issued before any tick of the current run need not return `undefined`.
Trace: start at 0, tick at 5, stop at 10, start again at 20, stop at 21
with no tick since that second start — the final stop returns `Time 5`,
the value stored by the tick of the previous run, not `undefined`. -/
theorem stale_time_counterexample :
    (run initTimer [Ev.toggle 0, Ev.tick 5, Ev.toggle 10, Ev.toggle 20]).running
        = true ∧
    (run initTimer [Ev.toggle 0, Ev.tick 5, Ev.toggle 10, Ev.toggle 20]).start
        = some 20 ∧
    (toggle 21
        (run initTimer [Ev.toggle 0, Ev.tick 5, Ev.toggle 10, Ev.toggle 20])).2
        = some 5 ∧
    (toggle 21
        (run initTimer [Ev.toggle 0, Ev.tick 5, Ev.toggle 10, Ev.toggle 20])).2
        ≠ none := by
  refine ⟨?_, ?_, ?_, ?_⟩ <;> decide

/-- C10-amended: a stopping toggle call returns exactly the stored `time`
field — the value written by the most recent refresh tick, possibly during
an earlier run; it returns `undefined` when no refresh tick has ever
executed since construction; and each tick stores the elapsed value
`now − startInstant` of its own instant. -/
theorem stop_returns_stored_time :
    (∀ (now : Nat) (s : TimerState), s.running = true →
      (toggle now s).2 = s.time) ∧
    (∀ evs : List Ev, evs.all (fun e => !e.isTick) = true →
      (run initTimer evs).time = none) ∧
    (∀ (now : Nat) (s : TimerState), s.intervalActive = true →
      (tick now s).time = some (now - s.start.getD 0)) := by
  refine ⟨toggle_stop_returns_time, run_no_tick_time_none, ?_⟩
  intro now s h
  simp [tick, h]

theorem stop_returns_stored_time_witness :
    ([Ev.toggle 0, Ev.toggle 5].all (fun e => !e.isTick) = true) ∧
    (run initTimer [Ev.toggle 0, Ev.toggle 5]).time = none :=
  ⟨by decide, stop_returns_stored_time.2.1 [Ev.toggle 0, Ev.toggle 5] (by decide)⟩

theorem sortSolves_sorted (l : List SolveRecord) :
    List.Pairwise msLE (sortSolves l) :=
  List.sorted_insertionSort msLE l

theorem sortSolves_perm (l : List SolveRecord) : (sortSolves l).Perm l :=
  List.perm_insertionSort msLE l

theorem sorted_head_le (x : SolveRecord) (xs : List SolveRecord)
    (h : List.Pairwise msLE (x :: xs)) :
    ∀ r ∈ x :: xs, x.time.ms ≤ r.time.ms := by
  intro r hr
  rcases List.mem_cons.mp hr with rfl | hr2
  · exact Nat.le_refl _
  · exact (List.pairwise_cons.mp h).1 r hr2

theorem sorted_le_getLast :
    ∀ (l : List SolveRecord) (hne : l ≠ []) (_ : List.Pairwise msLE l),
      ∀ r ∈ l, r.time.ms ≤ (l.getLast hne).time.ms := by
  intro l
  induction l with
  | nil => intro hne; exact absurd rfl hne
  | cons x xs ih =>
      intro hne h r hr
      cases xs with
      | nil =>
          have : r = x := by simpa using hr
          subst this
          exact Nat.le_refl _
      | cons y ys =>
          have hgl : (x :: y :: ys).getLast hne
              = (y :: ys).getLast (List.cons_ne_nil y ys) := rfl
          rw [hgl]
          rcases List.mem_cons.mp hr with rfl | hr2
          · have hmem := List.getLast_mem (List.cons_ne_nil y ys)
            exact (List.pairwise_cons.mp h).1 _ hmem
          · exact ih (List.cons_ne_nil y ys) (List.pairwise_cons.mp h).2 r hr2

theorem updateStats_fst (l : List SolveRecord) :
    (updateStats l).1 = sortSolves l := by
  unfold updateStats
  split
  · next heq => rw [heq]
  · next x xs heq => rw [heq]

theorem updateStats_spec (l : List SolveRecord) (x : SolveRecord)
    (xs : List SolveRecord) (h : sortSolves l = x :: xs) :
    (updateStats l).2 = some
      ⟨((((x :: xs).map (fun r => r.time.ms)).sum : Nat) : ℚ)
          / (((x :: xs).length : Nat) : ℚ),
       x.time.ms,
       (if (x :: xs).length % 2 = 1 then
          (((x :: xs).getD ((x :: xs).length / 2) x).time.ms : ℚ)
        else
          ((((x :: xs).getD ((x :: xs).length / 2 - 1) x).time.ms : ℚ)
            + (((x :: xs).getD ((x :: xs).length / 2) x).time.ms : ℚ)) / 2),
       ((x :: xs).getLast (List.cons_ne_nil x xs)).time.ms⟩ := by
  unfold updateStats
  rw [h]

theorem updateStats_none (l : List SolveRecord) (h : sortSolves l = []) :
    (updateStats l).2 = none := by
  unfold updateStats
  rw [h]

theorem updateStats_exThree :
    (updateStats exThree).2 = some ⟨2000, 1000, 2000, 3000⟩ := by
  rw [updateStats_spec exThree ⟨⟨1000⟩, "s"⟩ [⟨⟨2000⟩, "s"⟩, ⟨⟨3000⟩, "s"⟩] rfl]
  norm_num [List.getD, List.getLast]

theorem updateStats_exTwo :
    (updateStats exTwo).2 = some ⟨2000, 1000, 2000, 3000⟩ := by
  rw [updateStats_spec exTwo ⟨⟨1000⟩, "s"⟩ [⟨⟨3000⟩, "s"⟩] rfl]
  norm_num [List.getD, List.getLast]

/-- C2: for every non-empty history, `updateStats` exposes best = the
minimum millisecond value, worst = the maximum, mean = the arithmetic mean
of all millisecond values (as a rational), and median = the middle value
after sorting by milliseconds, averaging the two central values when the
count is even; in particular values [1000, 2000, 3000] yield mean 2000,
median 2000, best 1000, worst 3000, and values [1000, 3000] yield
median 2000 and mean 2000. -/
theorem updateStats_correct :
    (∀ (l : List SolveRecord) (st : Stats), (updateStats l).2 = some st →
      (st.best ∈ msValues l ∧ ∀ v ∈ msValues l, st.best ≤ v) ∧
      (st.worst ∈ msValues l ∧ ∀ v ∈ msValues l, v ≤ st.worst) ∧
      st.mean = ((msValues l).sum : ℚ) / ((msValues l).length : ℚ) ∧
      st.median = medianSpec (msValues l)) ∧
    (updateStats exThree).2 = some ⟨2000, 1000, 2000, 3000⟩ ∧
    (updateStats exTwo).2 = some ⟨2000, 1000, 2000, 3000⟩ := by
  refine ⟨?_, updateStats_exThree, updateStats_exTwo⟩
  intro l st hst
  cases hsort : sortSolves l with
  | nil => rw [updateStats_none l hsort] at hst; cases hst
  | cons x xs =>
      rw [updateStats_spec l x xs hsort] at hst
      injection hst with hst
      subst hst
      have hperm : (x :: xs).Perm l := by rw [← hsort]; exact sortSolves_perm l
      have hsorted : List.Pairwise msLE (x :: xs) := by
        rw [← hsort]; exact sortSolves_sorted l
      have hmem_of : ∀ r : SolveRecord, r ∈ x :: xs → r.time.ms ∈ msValues l := by
        intro r hr
        exact List.mem_map.mpr ⟨r, hperm.mem_iff.mp hr, rfl⟩
      have hval_of : ∀ v ∈ msValues l, ∃ r ∈ x :: xs, r.time.ms = v := by
        intro v hv
        obtain ⟨r, hrl, hrv⟩ := List.mem_map.mp hv
        exact ⟨r, hperm.mem_iff.mpr hrl, hrv⟩
      refine ⟨⟨?_, ?_⟩, ⟨?_, ?_⟩, ?_, ?_⟩
      · exact hmem_of x (List.mem_cons_self x xs)
      · intro v hv
        obtain ⟨r, hr, hrv⟩ := hval_of v hv
        exact hrv ▸ sorted_head_le x xs hsorted r hr
      · exact hmem_of _ (List.getLast_mem (List.cons_ne_nil x xs))
      · intro v hv
        obtain ⟨r, hr, hrv⟩ := hval_of v hv
        exact hrv ▸ sorted_le_getLast (x :: xs) (List.cons_ne_nil x xs) hsorted r hr
      · show ((((x :: xs).map (fun r => r.time.ms)).sum : Nat) : ℚ)
              / (((x :: xs).length : Nat) : ℚ)
            = ((msValues l).sum : ℚ) / ((msValues l).length : ℚ)
        have hsum : ((x :: xs).map (fun r => r.time.ms)).sum = (msValues l).sum :=
          (hperm.map (fun r => r.time.ms)).sum_eq
        have hlen : (x :: xs).length = (msValues l).length := by
          rw [msValues, List.length_map]
          exact hperm.length_eq
        rw [hsum, hlen]
      · show (if (x :: xs).length % 2 = 1 then
              (((x :: xs).getD ((x :: xs).length / 2) x).time.ms : ℚ)
            else
              ((((x :: xs).getD ((x :: xs).length / 2 - 1) x).time.ms : ℚ)
                + (((x :: xs).getD ((x :: xs).length / 2) x).time.ms : ℚ)) / 2)
            = medianSpec (msValues l)
        have hmap : (x :: xs).map (fun r => r.time.ms)
            = (msValues l).insertionSort (· ≤ ·) := by
          rw [← hsort, sortSolves, msValues]
          exact List.map_insertionSort msLE (· ≤ ·) (fun r => r.time.ms) l
            (fun a _ b _ => Iff.rfl)
        have hlen : (msValues l).length = (x :: xs).length := by
          rw [msValues, List.length_map]
          exact hperm.length_eq.symm
        have hgd : ∀ i, i < (x :: xs).length →
            ((((x :: xs).getD i x).time.ms : Nat) : ℚ)
              = ((((msValues l).insertionSort (· ≤ ·)).getD i 0 : Nat) : ℚ) := by
          intro i hi
          have hi2 : i < ((x :: xs).map (fun r => r.time.ms)).length := by
            rw [List.length_map]; exact hi
          rw [← hmap, List.getD_eq_getElem _ _ hi2, List.getD_eq_getElem _ _ hi,
            List.getElem_map]
        have hlc : (x :: xs).length = xs.length + 1 := List.length_cons x xs
        rw [medianSpec]
        rw [hlen]
        by_cases hodd : (x :: xs).length % 2 = 1
        · rw [if_pos hodd, if_pos hodd]
          exact hgd _ (by omega)
        · rw [if_neg hodd, if_neg hodd]
          rw [hgd _ (by omega), hgd _ (by omega)]

theorem updateStats_correct_witness :
    (updateStats exThree).2 = some ⟨2000, 1000, 2000, 3000⟩ ∧
    (2000 : ℚ) = ((msValues exThree).sum : ℚ) / ((msValues exThree).length : ℚ) ∧
    (2000 : ℚ) = medianSpec (msValues exThree) :=
  ⟨updateStats_exThree,
   (updateStats_correct.1 exThree ⟨2000, 1000, 2000, 3000⟩ updateStats_exThree).2.2.1,
   (updateStats_correct.1 exThree ⟨2000, 1000, 2000, 3000⟩ updateStats_exThree).2.2.2⟩

theorem addSolveRecord_fst (st : List SolveRecord) (r : SolveRecord) :
    (addSolveRecord st r).1 = sortSolves (st ++ [r]) :=
  updateStats_fst (st ++ [r])

theorem foldl_record_sorted :
    ∀ (rs : List SolveRecord) (st : List SolveRecord),
      List.Pairwise msLE st →
      List.Pairwise msLE (rs.foldl (fun st r => (addSolveRecord st r).1) st) := by
  intro rs
  induction rs with
  | nil => intro st h; exact h
  | cons r rest ih =>
      intro st _
      rw [List.foldl_cons]
      apply ih
      rw [addSolveRecord_fst]
      exact sortSolves_sorted _

theorem recordAll_sorted (rs : List SolveRecord) :
    List.Pairwise msLE (recordAll rs) :=
  foldl_record_sorted rs [] List.Pairwise.nil

/-- C5-counterexample: recording solves of 3000 ms, 1000 ms and 2000 ms (in
that order) leaves the module-level history as `[1000, 2000, 3000]`: the
history restricted to the two previously stored entries reads
`[1000, 3000]`, not the insertion-order sequence `[3000, 1000]` — the
stored sequence is reordered by the in-place sort. -/
theorem record_reorders_counterexample :
    (addSolveRecord (recordAll [rA, rB]) rC).1.filter
        (fun r => decide (r ∈ [rA, rB])) = [rB, rA] ∧
    ¬ ((addSolveRecord (recordAll [rA, rB]) rC).1.filter
        (fun r => decide (r ∈ [rA, rB])) = [rA, rB]) ∧
    (addSolveRecord (recordAll [rA, rB]) rC).1 = [rB, rC, rA] := by
  refine ⟨?_, ?_, ?_⟩ <;> decide

/-- C5-amended: recording a solve never mutates or drops previously stored
entries — the new history is a permutation of the old history with the new
record appended, and (the sort being stable and the reachable history
already sorted) the pre-call stored sequence survives as a subsequence of
the post-call stored sequence — but the stored sequence is maintained in
ascending millisecond order, not in insertion order, because `updateStats`
sorts the module-level array in place. -/
theorem record_preserves_entries :
    (∀ (st : List SolveRecord) (r : SolveRecord), List.Pairwise msLE st →
      ((addSolveRecord st r).1).Perm (st ++ [r]) ∧
      st.Sublist (addSolveRecord st r).1) ∧
    (∀ rs : List SolveRecord, List.Pairwise msLE (recordAll rs)) ∧
    (∀ (rs : List SolveRecord) (r : SolveRecord),
      (recordAll rs).Sublist (addSolveRecord (recordAll rs) r).1 ∧
      ((addSolveRecord (recordAll rs) r).1).Perm (recordAll rs ++ [r])) := by
  have main : ∀ (st : List SolveRecord) (r : SolveRecord), List.Pairwise msLE st →
      ((addSolveRecord st r).1).Perm (st ++ [r]) ∧
      st.Sublist (addSolveRecord st r).1 := by
    intro st r h
    constructor
    · rw [addSolveRecord_fst]
      exact sortSolves_perm (st ++ [r])
    · rw [addSolveRecord_fst]
      simpa [sortSolves] using
        List.sublist_insertionSort h (List.sublist_append_left st [r])
  exact ⟨main, recordAll_sorted, fun rs r =>
    ⟨(main (recordAll rs) r (recordAll_sorted rs)).2,
     (main (recordAll rs) r (recordAll_sorted rs)).1⟩⟩

theorem record_preserves_entries_witness :
    List.Pairwise msLE exTwo ∧
    exTwo.Sublist (addSolveRecord exTwo ⟨⟨2000⟩, "s"⟩).1 :=
  ⟨by decide, (record_preserves_entries.1 exTwo ⟨⟨2000⟩, "s"⟩ (by decide)).2⟩

/-- C9: after every stats recomputation the stored history itself — the
module-level `solves` array, returned as the first component — is the
in-place sort of its previous contents: it is sorted in ascending
millisecond order and is a permutation of (not a copy distinct from) the
pre-call history; consequently the history after any sequence of recorded
solves is sorted by milliseconds. -/
theorem history_sorted_in_place :
    (∀ l : List SolveRecord, (updateStats l).1 = sortSolves l ∧
      List.Pairwise msLE ((updateStats l).1) ∧ ((updateStats l).1).Perm l) ∧
    (∀ rs : List SolveRecord, List.Pairwise msLE (recordAll rs)) := by
  refine ⟨fun l => ⟨updateStats_fst l, ?_, ?_⟩, recordAll_sorted⟩
  · rw [updateStats_fst]
    exact sortSolves_sorted l
  · rw [updateStats_fst]
    exact sortSolves_perm l
